import Mathlib

/-!
Verification of the `lightyear` outbound packet builder.

Shallow embedding of `src/lightyear/src/packet/packet_builder.rs`
(`PacketBuilder::build_packets` and its helpers) and proofs of the
specification claims about it.

Modelling conventions:

* Machine integers (`usize`, channel / message ids) are `Nat`.  The only
  wrapping operation in the translated code is `num_messages as u8`, modelled
  as `% 256`; `prewritten_size` uses `checked_sub`, modelled by an explicit
  comparison before subtraction.
* A packet's byte buffer is modelled as a list of *write items* (header bytes,
  a channel-id varint, a message-count byte, one single message, one
  fragment).  Each item has a definite byte length; `payload.len()` is the sum
  of the item lengths.  This is faithful to the builder, which only ever
  appends whole items to the buffer.
* Serialization into a `Vec<u8>` cannot fail, so `to_bytes` calls are total.
  The fallible behaviours of the Rust code are modelled in `Except`:
  `SerializationError::SubstractionOverflow` (from `checked_sub`) becomes
  `BuildError.subOverflow`, and a Rust panic (`Option::unwrap` on `None`,
  `unreachable!()`) becomes `BuildError.panicked`.  The remaining-singles
  `loop` in the source can only re-enter after a path that panics first, so
  it is translated as a single iteration; the inner index loops get explicit
  fuel (always sufficient) and a separate `BuildError.fuelOut` marker.
* The types `Packet`, `SingleData`, `FragmentData` and the functions
  `can_fit`, `can_fit_channel`, `SingleData::len`, `FragmentData::len`,
  `is_last_fragment` and `varint_len` live in files that are not part of the
  given sources; they are modelled from the spec (see the doc comment of each
  such definition).  Everything else is translated from
  `packet_builder.rs` directly.
-/

namespace Lightyear

/-- Modelled from the spec: channel identifiers are "serialized with a
variable-length encoding"; `varint_len` gives the encoded byte length of a
`u64`, one byte per 7 payload bits (the standard LEB128-style varint used by
`crate::serialize::varint`, whose source is not included). -/
def varint_len (n : Nat) : Nat :=
  if n < 2 ^ 7 then 1
  else if n < 2 ^ 14 then 2
  else if n < 2 ^ 21 then 3
  else if n < 2 ^ 28 then 4
  else if n < 2 ^ 35 then 5
  else if n < 2 ^ 42 then 6
  else if n < 2 ^ 49 then 7
  else if n < 2 ^ 56 then 8
  else if n < 2 ^ 63 then 9
  else 10

/-- Modelled from the spec: `SingleData` is "one complete, unfragmented
outbound message" with an optional acknowledgment id and an immutable
payload (`crate::packet::message`, not included in the sources). -/
structure SingleData where
  id : Option Nat
  bytes : List Nat
deriving DecidableEq, Repr

/-- Modelled from the spec: the byte length of the optional id prefix of a
serialized `SingleData` — the id is "present iff the sender expects an
acknowledgment", so its wire form is a one-byte option tag plus a two-byte
message id when present. -/
def idPrefixLen : Option Nat → Nat
  | none => 1
  | some _ => 3

/-- Modelled from the spec: "Derived `encoded_len`: bytes needed to serialize
this message (payload + length/id prefix per wire format)".  This is
`SingleData::len()` in the Rust code. -/
def SingleData.len (m : SingleData) : Nat :=
  idPrefixLen m.id + varint_len m.bytes.length + m.bytes.length

/-- Modelled from the spec: `FragmentData` is "one slice of a message too
large to fit in a single packet", carrying the parent message id, the
zero-based fragment index, the parent's fragment count and the slice
payload (`crate::packet::message`, not included in the sources). -/
structure FragmentData where
  messageId : Nat
  fragmentId : Nat
  numFragments : Nat
  bytes : List Nat
deriving DecidableEq, Repr

/-- Modelled from the spec: "is last fragment of its message" is "true iff
`fragment_id` equals the parent's fragment count minus one". -/
def FragmentData.is_last_fragment (f : FragmentData) : Bool :=
  f.fragmentId + 1 = f.numFragments

/-- Modelled from the spec: encoded byte length of a serialized
`FragmentData` ("fragment metadata: message_id, fragment_id, payload"):
varint message id, varint fragment id, varint payload length, payload. -/
def FragmentData.len (f : FragmentData) : Nat :=
  varint_len f.messageId + varint_len f.fragmentId +
    varint_len f.bytes.length + f.bytes.length

/-- `MessageAck` from `crate::packet::message`: "(message_id, optional
fragment_id)". -/
structure MessageAck where
  messageId : Nat
  fragmentId : Option Nat
deriving DecidableEq, Repr

/-- One item appended to a packet's payload buffer.  The builder only ever
appends whole items: the serialized packet header, a channel id varint, the
one-byte message count of a channel block, a serialized single message, or a
serialized fragment. -/
inductive PayloadItem where
  | header (packetId : Nat)
  | chan (channelId : Nat)
  | count (n : Nat)
  | single (m : SingleData)
  | frag (f : FragmentData)
deriving DecidableEq, Repr

/-- Size parameters of the transport, kept abstract: the maximum payload
size (`MTU_PAYLOAD_BYTES`) and the byte length of a serialized packet
header.  Neither constant's defining file is part of the sources. -/
structure Params where
  mtu : Nat
  headerLen : Nat
deriving DecidableEq, Repr

/-- Byte length of one payload item. -/
def itemLen (P : Params) : PayloadItem → Nat
  | .header _ => P.headerLen
  | .chan c => varint_len c
  | .count _ => 1
  | .single m => m.len
  | .frag f => f.len

/-- `payload.len()`: total byte length of the buffer. -/
def payloadLen (P : Params) (items : List PayloadItem) : Nat :=
  (items.map (itemLen P)).sum

/-- `crate::packet::packet::Packet` (modelled from the spec §3: payload
buffer, packet id, accumulated acknowledgment records, and the
`prewritten_size` reservation counter). -/
structure Packet where
  payload : List PayloadItem
  messageAcks : List (Nat × MessageAck)
  packetId : Nat
  prewrittenSize : Nat
deriving DecidableEq, Repr

/-- Modelled from the spec §4.1: `can_fit(additional_encoded_len)` is "true
iff reserving `additional_encoded_len` more bytes (on top of already-written
and already-reserved bytes) keeps the packet within the maximum payload
size". -/
def Packet.can_fit (P : Params) (p : Packet) (size : Nat) : Bool :=
  payloadLen P p.payload + size + p.prewrittenSize ≤ P.mtu

/-- Modelled from the spec §4.1: `can_fit_channel(channel_id)` checks that
the channel id varint plus the one-byte message count still fit, and on
success *reserves* that space ("reserving increases `prewritten_size`"; the
builder comment "need to call this to add prewritten_size for this channel"
shows the reservation happens inside `can_fit_channel`, and
`write_single_messages` later commits exactly `varint_len(channel_id) + 1`
bytes).  Returns the success flag together with the updated packet. -/
def Packet.can_fit_channel (P : Params) (p : Packet) (c : Nat) : Bool × Packet :=
  let size := varint_len c + 1
  if p.can_fit P size then
    (true, { p with prewrittenSize := p.prewrittenSize + size })
  else
    (false, p)

/-- The mutable state of `PacketBuilder`: the header manager (reduced to its
observable behaviour, a fresh-packet-id counter) and the `current_packet`
slot. -/
structure Builder where
  nextPacketId : Nat
  currentPacket : Option Packet
deriving DecidableEq, Repr

/-- `PacketBuilder::new`. -/
def freshBuilder : Builder := { nextPacketId := 0, currentPacket := none }

/-- Failure modes of a build call.  `subOverflow` is
`SerializationError::SubstractionOverflow`; `panicked` models a Rust panic
(`Option::unwrap` on `None`, `unreachable!()`); `fuelOut` is an artefact of
the fuelled loop translation and is never produced when the fuel is
sufficient. -/
inductive BuildError where
  | subOverflow
  | panicked
  | fuelOut
deriving DecidableEq, Repr

/-- `PacketBuilder::build_new_single_packet` (lines 65-85): open a fresh
packet holding only the serialized header.  Writing the header into a `Vec`
cannot fail, so the `Result` is dropped. -/
def build_new_single_packet (st : Builder) : Builder :=
  { nextPacketId := st.nextPacketId + 1,
    currentPacket := some
      { payload := [PayloadItem.header st.nextPacketId],
        messageAcks := [],
        packetId := st.nextPacketId,
        prewrittenSize := 0 } }

/-- `PacketBuilder::build_new_fragment_packet` (lines 87-117): open a fresh
packet holding the header, the channel id and the fragment, pre-populated
with the fragment's acknowledgment record. -/
def build_new_fragment_packet (st : Builder) (c : Nat) (f : FragmentData) : Builder :=
  { nextPacketId := st.nextPacketId + 1,
    currentPacket := some
      { payload := [PayloadItem.header st.nextPacketId, PayloadItem.chan c,
          PayloadItem.frag f],
        messageAcks := [(c, ⟨f.messageId, some f.fragmentId⟩)],
        packetId := st.nextPacketId,
        prewrittenSize := 0 } }

/-- `PacketBuilder::finish_packet` (lines 140-145):
`self.current_packet.take().unwrap()` — panics when the slot is empty. -/
def finish_packet (st : Builder) : Except BuildError (Packet × Builder) :=
  match st.currentPacket with
  | none => .error BuildError.panicked
  | some p => .ok (p, { st with currentPacket := none })

/-- The message-writing loop inside `write_single_messages` (lines 350-366):
append each message, `checked_sub` its encoded length from
`prewritten_size`, and push an acknowledgment record when the message has an
id. -/
def write_msgs (p : Packet) (c : Nat) : List SingleData → Except BuildError Packet
  | [] => .ok p
  | m :: rest =>
    let p1 : Packet := { p with payload := p.payload ++ [PayloadItem.single m] }
    if m.len ≤ p1.prewrittenSize then
      let p2 : Packet := { p1 with prewrittenSize := p1.prewrittenSize - m.len }
      let p3 : Packet :=
        match m.id with
        | some i => { p2 with messageAcks := p2.messageAcks ++ [(c, ⟨i, none⟩)] }
        | none => p2
      write_msgs p3 c rest
    else .error BuildError.subOverflow

/-- `PacketBuilder::write_single_messages` (lines 333-370): write the channel
id, `checked_sub` the reserved channel-prefix bytes, then (when the range is
non-empty) write the count byte (`num_messages as u8`, hence `% 256`) and
the messages `messages[start..end]`.  Returns the packet and the updated
`start` index (`*start = *end` when messages were written). -/
def write_single_messages (p : Packet) (messages : List SingleData)
    (s e : Nat) (c : Nat) : Except BuildError (Packet × Nat) :=
  let p1 : Packet := { p with payload := p.payload ++ [PayloadItem.chan c] }
  if varint_len c + 1 ≤ p1.prewrittenSize then
    let p2 : Packet := { p1 with prewrittenSize := p1.prewrittenSize - (varint_len c + 1) }
    if e - s > 0 then
      let p3 : Packet := { p2 with payload :=
        p2.payload ++ [PayloadItem.count ((e - s) % 256)] }
      match write_msgs p3 c ((messages.drop s).take (e - s)) with
      | .error err => .error err
      | .ok p4 => .ok (p4, e)
    else .ok (p2, s)
  else .error BuildError.subOverflow

/-- The greedy reserve loop shared by the drain stage (lines 179-214) and the
remaining-singles stage (lines 285-321): starting from message index `e`,
reserve messages while `can_fit` holds.  When the queue is exhausted, commit
with `write_single_messages` and keep the packet (the caller stores it back
into `current_packet` and moves to the next channel).  When a message does
not fit, the code commits and then calls `finish_packet` — whose
`current_packet` was already taken, so it panics. -/
def pack_loop (P : Params) (c : Nat) (sorted : List SingleData) (s : Nat) :
    Nat → Packet → Nat → Except BuildError (Packet × Nat)
  | 0, _, _ => .error BuildError.fuelOut
  | k + 1, p, e =>
    if e = sorted.length then
      write_single_messages p sorted s e c
    else
      match sorted.get? e with
      | none => .error BuildError.panicked
      | some m =>
        if p.can_fit P m.len then
          pack_loop P c sorted s k
            { p with prewrittenSize := p.prewrittenSize + m.len } (e + 1)
        else
          match write_single_messages p sorted s e c with
          | .error err => .error err
          | .ok _ => .error BuildError.panicked

/-- The fill loop for the last fragment of a channel (lines 231-257).  It
differs from `pack_loop` only at queue exhaustion: the code does
`continue 'outer` *without* storing the packet back into `current_packet`,
so the fragment packet and all messages reserved into it are dropped. -/
def fill_loop (P : Params) (c : Nat) (sorted : List SingleData) (s : Nat) :
    Nat → Packet → Nat → Except BuildError Unit
  | 0, _, _ => .error BuildError.fuelOut
  | k + 1, p, e =>
    if e = sorted.length then
      .ok ()
    else
      match sorted.get? e with
      | none => .error BuildError.panicked
      | some m =>
        if p.can_fit P m.len then
          fill_loop P c sorted s k
            { p with prewrittenSize := p.prewrittenSize + m.len } (e + 1)
        else
          match write_single_messages p sorted s e c with
          | .error err => .error err
          | .ok _ => .error BuildError.panicked

/-- Result of the fragment stage of one channel: either fall through to the
remaining-singles stage, or end the channel immediately (the
`continue 'outer` of line 235). -/
inductive FragOut where
  | toRemaining (st : Builder) (packets : List Packet) (s e : Nat)
  | channelDone (st : Builder) (packets : List Packet)
deriving Repr

/-- The `'frag` loop (lines 219-262).  Each fragment opens a fresh fragment
packet.  A non-last fragment's packet is finished immediately.  For a last
fragment the packet is taken out of `current_packet`; if the channel header
does not fit, the code calls `finish_packet` on the now-empty slot (panic);
otherwise `fill_loop` runs (dropping the packet at exhaustion, panicking
when a message does not fit). -/
def frag_loop (P : Params) (c : Nat) (sorted : List SingleData) :
    Builder → List Packet → Nat → Nat → List FragmentData →
    Except BuildError FragOut
  | st, packets, s, e, [] => .ok (FragOut.toRemaining st packets s e)
  | st, packets, s, e, f :: rest =>
    let st1 := build_new_fragment_packet st c f
    if f.is_last_fragment then
      match st1.currentPacket with
      | none => .error BuildError.panicked
      | some p =>
        let st2 : Builder := { st1 with currentPacket := none }
        match p.can_fit_channel P c with
        | (false, _) => .error BuildError.panicked
        | (true, p') =>
          match fill_loop P c sorted s (sorted.length - e + 1) p' e with
          | .error err => .error err
          | .ok _ => .ok (FragOut.channelDone st2 packets)
    else
      match finish_packet st1 with
      | .error err => .error err
      | .ok (pkt, st2) => frag_loop P c sorted st2 (packets ++ [pkt]) s e rest

/-- Lines 267-274: ensure there is a current packet that can take this
channel, opening a fresh one when the slot is empty or the carried packet
cannot fit the channel header (in which case the carried packet is
*replaced*, i.e. dropped).  `can_fit_channel` reserves on success, through
`as_mut`. -/
def rem_ensure (P : Params) (c : Nat) (st : Builder) : Builder :=
  match st.currentPacket with
  | none => build_new_single_packet st
  | some p =>
    match p.can_fit_channel P c with
    | (true, p') => { st with currentPacket := some p' }
    | (false, _) => build_new_single_packet st

/-- Lines 275-321: take the current packet, re-check (and re-reserve) the
channel header (`unreachable!()` when it fails), and run the greedy reserve
loop. -/
def rem_core (P : Params) (c : Nat) (sorted : List SingleData)
    (st1 : Builder) (packets : List Packet) (s e : Nat) :
    Except BuildError (Builder × List Packet) :=
  match st1.currentPacket with
  | none => .error BuildError.panicked
  | some p =>
    let st2 : Builder := { st1 with currentPacket := none }
    match p.can_fit_channel P c with
    | (false, _) => .error BuildError.panicked
    | (true, p') =>
      match pack_loop P c sorted s (sorted.length - e + 1) p' e with
      | .error err => .error err
      | .ok (pk, _) => .ok ({ st2 with currentPacket := some pk }, packets)

/-- The remaining-singles stage (lines 265-322).  The Rust `loop` can only
repeat through a branch that first calls `finish_packet` on an empty
`current_packet` slot, which panics, so the loop body runs at most once and
is translated without recursion. -/
def rem_phase (P : Params) (c : Nat) (sorted : List SingleData)
    (st : Builder) (packets : List Packet) (s e : Nat) :
    Except BuildError (Builder × List Packet) :=
  rem_core P c sorted (rem_ensure P c st) packets s e

/-- The stable ascending sort of the single-message queue by
`message.bytes.len()` (lines 165-168).  Rust's `sort_by_key` is a stable
sort; a stable sort by a key is a unique function of its input, so the
stable `insertionSort` produces the same list. -/
def sortSingles (l : List SingleData) : List SingleData :=
  l.insertionSort (fun a b => a.bytes.length ≤ b.bytes.length)

/-- The body of the `'outer` loop of `build_packets` (lines 160-323) for one
channel.  When a packet is carried over from the previous channel, the drain
stage runs; all its exits either end the channel (`continue 'outer`) or
panic, so the fragment and remaining stages only run when no packet was
carried over. -/
def process_channel (P : Params) (st : Builder) (packets : List Packet)
    (c : Nat) (singles : List SingleData) (frags : List FragmentData) :
    Except BuildError (Builder × List Packet) :=
  let sorted := sortSingles singles
  match st.currentPacket with
  | some p =>
    let st1 : Builder := { st with currentPacket := none }
    match p.can_fit_channel P c with
    | (false, _) => .error BuildError.panicked
    | (true, p') =>
      match pack_loop P c sorted 0 (sorted.length + 1) p' 0 with
      | .error err => .error err
      | .ok (pk, _) => .ok ({ st1 with currentPacket := some pk }, packets)
  | none =>
    match frag_loop P c sorted st packets 0 0 frags with
    | .error err => .error err
    | .ok (FragOut.channelDone st2 pk2) => .ok (st2, pk2)
    | .ok (FragOut.toRemaining st2 pk2 s e) => rem_phase P c sorted st2 pk2 s e

/-- Iterate `process_channel` over the input map's entries.  A `BTreeMap`
iterates its entries in ascending key order, so the input is the list of
`(channel_id, (single queue, fragment queue))` entries, keys ascending and
distinct. -/
def process_channels (P : Params) :
    Builder → List Packet → List (Nat × List SingleData × List FragmentData) →
    Except BuildError (Builder × List Packet)
  | st, packets, [] => .ok (st, packets)
  | st, packets, (c, singles, frags) :: rest =>
    match process_channel P st packets c singles frags with
    | .error err => .error err
    | .ok (st', pkts') => process_channels P st' pkts' rest

/-- `PacketBuilder::build_packets` (lines 153-330): process every channel,
then push the still-open packet, if any. -/
def build_packets (P : Params) (st : Builder)
    (input : List (Nat × List SingleData × List FragmentData)) :
    Except BuildError (List Packet × Builder) :=
  match process_channels P st [] input with
  | .error err => .error err
  | .ok (st1, pkts) =>
    match st1.currentPacket with
    | some _ =>
      match finish_packet st1 with
      | .error err => .error err
      | .ok (pkt, st2) => .ok (pkts ++ [pkt], st2)
    | none => .ok (pkts, st1)

/-! ### Observation functions used by the claims -/

/-- The packet list of a successful build, `none` on error or panic. -/
def buildOutputPackets (P : Params) (st : Builder)
    (input : List (Nat × List SingleData × List FragmentData)) :
    Option (List Packet) :=
  match build_packets P st input with
  | .ok (pkts, _) => some pkts
  | .error _ => none

/-- The error of a failed build, `none` on success. -/
def buildOutputError (P : Params) (st : Builder)
    (input : List (Nat × List SingleData × List FragmentData)) :
    Option BuildError :=
  match build_packets P st input with
  | .ok _ => none
  | .error err => some err

/-- All payload items of a packet list, in emission order. -/
def packetsItems (pkts : List Packet) : List PayloadItem :=
  (pkts.map Packet.payload).flatten

/-- The single messages recoverable from a payload, in order. -/
def singlesIn : List PayloadItem → List SingleData
  | [] => []
  | PayloadItem.single m :: rest => m :: singlesIn rest
  | PayloadItem.header _ :: rest => singlesIn rest
  | PayloadItem.chan _ :: rest => singlesIn rest
  | PayloadItem.count _ :: rest => singlesIn rest
  | PayloadItem.frag _ :: rest => singlesIn rest

/-- The fragments recoverable from a payload, in order. -/
def fragsIn : List PayloadItem → List FragmentData
  | [] => []
  | PayloadItem.frag f :: rest => f :: fragsIn rest
  | PayloadItem.header _ :: rest => fragsIn rest
  | PayloadItem.chan _ :: rest => fragsIn rest
  | PayloadItem.count _ :: rest => fragsIn rest
  | PayloadItem.single _ :: rest => fragsIn rest

/-- The channel id in effect after processing a prefix of payload items
(the argument of the nearest preceding channel-id write). -/
def chanState (cur : Nat) (items : List PayloadItem) : Nat :=
  items.foldl (fun a i =>
    match i with
    | PayloadItem.chan c => c
    | _ => a) cur

/-- The acknowledgment records a payload *should* carry: one per fragment
and one per single message that has an id, tagged with the channel id in
effect where the item was written. -/
def acksOfItems (cur : Nat) : List PayloadItem → List (Nat × MessageAck)
  | [] => []
  | PayloadItem.chan c :: rest => acksOfItems c rest
  | PayloadItem.single m :: rest =>
    (match m.id with
     | some i => [(cur, { messageId := i, fragmentId := none })]
     | none => []) ++ acksOfItems cur rest
  | PayloadItem.frag f :: rest =>
    (cur, { messageId := f.messageId, fragmentId := some f.fragmentId }) ::
      acksOfItems cur rest
  | PayloadItem.header _ :: rest => acksOfItems cur rest
  | PayloadItem.count _ :: rest => acksOfItems cur rest

/-- The items appended to a packet by a successful
`write_single_messages p messages s e c` call. -/
def wsmItems (c : Nat) (messages : List SingleData) (s e : Nat) : List PayloadItem :=
  PayloadItem.chan c ::
    (if e - s > 0 then
      PayloadItem.count ((e - s) % 256) ::
        ((messages.drop s).take (e - s)).map PayloadItem.single
    else [])

/-- The acknowledgment records produced for a list of written messages. -/
def msgAcksOf (c : Nat) (l : List SingleData) : List (Nat × MessageAck) :=
  l.filterMap fun m => m.id.map fun i => (c, { messageId := i, fragmentId := none })

/-- The acknowledgment records appended by a successful
`write_single_messages p messages s e c` call. -/
def wsmAcks (c : Nat) (messages : List SingleData) (s e : Nat) :
    List (Nat × MessageAck) :=
  msgAcksOf c ((messages.drop s).take (e - s))

/-- Spec-side definition, for comparison with the code's sort key: the spec
orders each channel's single-message queue "ascending by encoded length"
(`encoded_len`, i.e. `SingleData::len`), again stably. -/
def specSortByEncodedLen (l : List SingleData) : List SingleData :=
  l.insertionSort (fun a b => a.len ≤ b.len)

/-- A payload with no fragment item. -/
def FragFree (items : List PayloadItem) : Prop :=
  ∀ f : FragmentData, PayloadItem.frag f ∉ items

/-- Shape of every packet the builder keeps open: a header followed by
fragment-free channel blocks. -/
def ShapeA (p : Packet) : Prop :=
  ∃ pid rest, p.payload = PayloadItem.header pid :: rest ∧ FragFree rest

/-- Shape of an emitted fragment packet: exactly header, channel id and one
fragment.  `FF` carries extra bookkeeping about the fragment (instantiated
per claim). -/
def ShapeB (FF : Nat → FragmentData → Prop) (p : Packet) : Prop :=
  ∃ pid c f, p.payload = [PayloadItem.header pid, PayloadItem.chan c,
    PayloadItem.frag f] ∧ p.prewrittenSize = 0 ∧ FF c f

/-- The capacity invariant of an open packet. -/
def plenInv (P : Params) (p : Packet) : Prop :=
  payloadLen P p.payload + p.prewrittenSize ≤ P.mtu

/-- Master invariant of a packet built by the builder. -/
def GoodPkt (P : Params) (FF : Nat → FragmentData → Prop) (p : Packet) : Prop :=
  p.messageAcks = acksOfItems 0 p.payload ∧
    ((ShapeA p ∧ plenInv P p) ∨ ShapeB FF p)

/-- All packets of a list satisfy the master invariant. -/
def GoodOut (P : Params) (FF : Nat → FragmentData → Prop)
    (pkts : List Packet) : Prop :=
  ∀ pkt ∈ pkts, GoodPkt P FF pkt

/-- The open-packet slot, when full, satisfies the open-packet invariant. -/
def OpenGood (P : Params) (st : Builder) : Prop :=
  ∀ p, st.currentPacket = some p →
    p.messageAcks = acksOfItems 0 p.payload ∧ ShapeA p ∧ plenInv P p

/-- All payload items produced so far during a build: the finished packets'
payloads followed by the open packet's payload, if any.  (Committed blocks
are only ever appended at the end of this stream.) -/
def allItems (st : Builder) (pkts : List Packet) : List PayloadItem :=
  packetsItems pkts ++
    (match st.currentPacket with
     | some p => p.payload
     | none => [])

/-- The single messages belonging to channel `c` recoverable from a payload
stream, in order: a single message belongs to the channel id in effect where
it was written (the nearest preceding channel-id item). -/
def chanSinglesIn (c : Nat) : Nat → List PayloadItem → List SingleData
  | _, [] => []
  | _, PayloadItem.chan c' :: rest => chanSinglesIn c c' rest
  | cur, PayloadItem.single m :: rest =>
    if cur = c then m :: chanSinglesIn c cur rest else chanSinglesIn c cur rest
  | cur, PayloadItem.header _ :: rest => chanSinglesIn c cur rest
  | cur, PayloadItem.count _ :: rest => chanSinglesIn c cur rest
  | cur, PayloadItem.frag _ :: rest => chanSinglesIn c cur rest

/-! ### Concrete instances used by counterexamples and witnesses -/

/-- A generous MTU (all candidate items fit comfortably). -/
def genParams : Params := { mtu := 100, headerLen := 5 }

/-- A tight MTU used to exercise the carried-over-packet paths. -/
def tightParams : Params := { mtu := 20, headerLen := 5 }

/-- C1 instance: a sole fragment (the last of its message) on channel 5. -/
def c1frag : FragmentData := ⟨3, 0, 1, [1, 2]⟩

def c1in : List (Nat × List SingleData × List FragmentData) := [(5, [], [c1frag])]

/-- C2 instance: a small single message and a last fragment on channel 0. -/
def c2frag : FragmentData := ⟨3, 0, 1, [1, 2]⟩

def c2msg : SingleData := ⟨none, [7]⟩

def c2in : List (Nat × List SingleData × List FragmentData) := [(0, [c2msg], [c2frag])]

/-- C3 instance: channel 0 fills a packet to 19 of 20 bytes and leaves it
open; channel 1's header (2 bytes) no longer fits. -/
def c3msg : SingleData := ⟨none, [9, 9, 9, 9, 9, 9, 9, 9, 9, 9]⟩

def c3in : List (Nat × List SingleData × List FragmentData) :=
  [(0, [c3msg], []), (1, [], [])]

/-- C4 instance: a single channel whose queues are both empty. -/
def c4in : List (Nat × List SingleData × List FragmentData) := [(0, [], [])]

/-- C5 witness instance: one non-last fragment on channel 0. -/
def c5frag : FragmentData := ⟨3, 0, 2, [9, 9]⟩

def c5in : List (Nat × List SingleData × List FragmentData) := [(0, [], [c5frag])]

/-- C6 instance: channel 0 leaves a packet open, so channel 1's drain stage
runs, exhausts the empty single queue and skips the fragment stage. -/
def c6frag0 : FragmentData := ⟨4, 0, 2, [1]⟩

def c6frag1 : FragmentData := ⟨4, 1, 2, [2]⟩

def c6in : List (Nat × List SingleData × List FragmentData) :=
  [(0, [⟨none, [7]⟩], []), (1, [], [c6frag0, c6frag1])]

/-- C7 instance: like the C6 instance, but the single message carries id 5,
on channels 2 and 3. -/
def c7in : List (Nat × List SingleData × List FragmentData) :=
  [(2, [⟨some 5, [7]⟩], []), (3, [], [⟨6, 0, 2, [1]⟩, ⟨6, 1, 2, [2]⟩])]

/-- C8 instance: `c8mA` has the shorter payload (5 bytes) but, carrying an
id, the larger encoded length (9 bytes); `c8mB` has 6 payload bytes and
encoded length 8. -/
def c8mA : SingleData := ⟨some 7, [1, 2, 3, 4, 5]⟩

def c8mB : SingleData := ⟨none, [1, 2, 3, 4, 5, 6]⟩

def c8queue : List SingleData := [c8mA, c8mB]

def c8in : List (Nat × List SingleData × List FragmentData) := [(0, c8queue, [])]

end Lightyear

namespace Lightyear

/-! ### Basic lemmas -/

theorem payloadLen_append (P : Params) (xs ys : List PayloadItem) :
    payloadLen P (xs ++ ys) = payloadLen P xs + payloadLen P ys := by
  simp [payloadLen]

theorem payloadLen_nil (P : Params) : payloadLen P [] = 0 := rfl

theorem payloadLen_singleton (P : Params) (x : PayloadItem) :
    payloadLen P [x] = itemLen P x := by
  simp [payloadLen]

theorem wsmItems_of_pos {s e : Nat} (c : Nat) (messages : List SingleData)
    (h : 0 < e - s) :
    wsmItems c messages s e = PayloadItem.chan c ::
      PayloadItem.count ((e - s) % 256) ::
        ((messages.drop s).take (e - s)).map PayloadItem.single := by
  simp [wsmItems, h]

theorem wsmItems_of_zero {s e : Nat} (c : Nat) (messages : List SingleData)
    (h : e - s = 0) :
    wsmItems c messages s e = [PayloadItem.chan c] := by
  simp [wsmItems, h]

/-- Full characterization of a successful `write_msgs` call. -/
theorem write_msgs_ok (c : Nat) (l : List SingleData) : ∀ (p p' : Packet),
    write_msgs p c l = .ok p' →
    p'.payload = p.payload ++ l.map PayloadItem.single ∧
      p'.messageAcks = p.messageAcks ++ msgAcksOf c l ∧
      p'.packetId = p.packetId ∧
      ∀ P : Params, payloadLen P p'.payload + p'.prewrittenSize =
        payloadLen P p.payload + p.prewrittenSize := by
  induction l with
  | nil =>
    intro p p' h
    simp only [write_msgs] at h
    obtain rfl := Except.ok.inj h
    simp [msgAcksOf]
  | cons m rest ih =>
    intro p p' h
    simp only [write_msgs] at h
    split at h
    · rename_i hle
      cases hid : m.id with
      | some i =>
        rw [hid] at h
        obtain ⟨h1, h2, h3, h4⟩ := ih _ _ h
        refine ⟨?_, ?_, h3, ?_⟩
        · simpa [List.append_assoc] using h1
        · simp only [h2]
          simp [msgAcksOf, hid, List.append_assoc]
        · intro P
          have h5 := h4 P
          simp only [payloadLen_append, payloadLen_singleton, itemLen] at h5
          omega
      | none =>
        rw [hid] at h
        obtain ⟨h1, h2, h3, h4⟩ := ih _ _ h
        refine ⟨?_, ?_, h3, ?_⟩
        · simpa [List.append_assoc] using h1
        · simp only [h2]
          simp [msgAcksOf, hid]
        · intro P
          have h5 := h4 P
          simp only [payloadLen_append, payloadLen_singleton, itemLen] at h5
          omega
    · exact absurd h (by simp)

/-- Full characterization of a successful `write_single_messages` call. -/
theorem write_single_messages_ok (p : Packet) (messages : List SingleData)
    (s e c : Nat) (p' : Packet) (s' : Nat)
    (h : write_single_messages p messages s e c = .ok (p', s')) :
    p'.payload = p.payload ++ wsmItems c messages s e ∧
      p'.messageAcks = p.messageAcks ++ wsmAcks c messages s e ∧
      p'.packetId = p.packetId ∧
      ∀ P : Params, payloadLen P p'.payload + p'.prewrittenSize ≤
        payloadLen P p.payload + p.prewrittenSize := by
  simp only [write_single_messages] at h
  split at h
  · rename_i hle
    split at h
    · rename_i hpos
      cases hw : write_msgs
          { payload := (p.payload ++ [PayloadItem.chan c]) ++
              [PayloadItem.count ((e - s) % 256)],
            messageAcks := p.messageAcks, packetId := p.packetId,
            prewrittenSize := p.prewrittenSize - (varint_len c + 1) }
          c ((messages.drop s).take (e - s)) with
      | error err => rw [hw] at h; exact absurd h (by simp)
      | ok p4 =>
        rw [hw] at h
        obtain ⟨hp, hs⟩ := Prod.mk.inj (Except.ok.inj h)
        subst hp
        obtain ⟨h1, h2, h3, h4⟩ := write_msgs_ok c _ _ _ hw
        refine ⟨?_, ?_, h3, ?_⟩
        · rw [h1, wsmItems_of_pos c messages hpos]
          simp [List.append_assoc]
        · simp only [h2, wsmAcks]
        · intro P
          have h5 := h4 P
          simp only [payloadLen_append, payloadLen_singleton, itemLen] at h5
          omega
    · rename_i hpos
      have hz : e - s = 0 := by omega
      obtain ⟨hp, hs⟩ := Prod.mk.inj (Except.ok.inj h)
      subst hp
      refine ⟨?_, ?_, rfl, ?_⟩
      · rw [wsmItems_of_zero c messages hz]
      · simp [wsmAcks, hz, msgAcksOf]
      · intro P
        simp only [payloadLen_append, payloadLen_singleton, itemLen]
        omega
  · exact absurd h (by simp)

theorem acksOfItems_append (xs : List PayloadItem) : ∀ (cur : Nat) (ys : List PayloadItem),
    acksOfItems cur (xs ++ ys) =
      acksOfItems cur xs ++ acksOfItems (chanState cur xs) ys := by
  induction xs with
  | nil => intro cur ys; simp [acksOfItems, chanState]
  | cons x rest ih =>
    intro cur ys
    cases x with
    | header pid => simp [acksOfItems, chanState, ih]
    | chan c2 => simp [acksOfItems, chanState, ih]
    | count n => simp [acksOfItems, chanState, ih]
    | frag f => simp [acksOfItems, chanState, ih]
    | single m =>
      cases hid : m.id with
      | some i => simp [acksOfItems, chanState, hid, ih]
      | none => simp [acksOfItems, chanState, hid, ih]

theorem acksOfItems_map_single (l : List SingleData) : ∀ cur : Nat,
    acksOfItems cur (l.map PayloadItem.single) = msgAcksOf cur l := by
  induction l with
  | nil => intro cur; simp [acksOfItems, msgAcksOf]
  | cons m rest ih =>
    intro cur
    cases hid : m.id with
    | some i => simp [acksOfItems, msgAcksOf, hid, ih cur, msgAcksOf]
    | none => simp [acksOfItems, msgAcksOf, hid, ih cur, msgAcksOf]

/-- The acknowledgment records of one committed channel block, for any
ambient channel state (the block starts with its own channel id). -/
theorem acksOfItems_wsmItems (cur c : Nat) (messages : List SingleData) (s e : Nat) :
    acksOfItems cur (wsmItems c messages s e) = wsmAcks c messages s e := by
  by_cases hpos : 0 < e - s
  · rw [wsmItems_of_pos c messages hpos]
    simp only [acksOfItems]
    rw [acksOfItems_map_single]
    rfl
  · have hz : e - s = 0 := by omega
    rw [wsmItems_of_zero c messages hz]
    simp [acksOfItems, wsmAcks, hz, msgAcksOf]

theorem singlesIn_append (xs ys : List PayloadItem) :
    singlesIn (xs ++ ys) = singlesIn xs ++ singlesIn ys := by
  induction xs with
  | nil => simp [singlesIn]
  | cons x rest ih => cases x <;> simp [singlesIn, ih]

theorem singlesIn_map_single (l : List SingleData) :
    singlesIn (l.map PayloadItem.single) = l := by
  induction l with
  | nil => simp [singlesIn]
  | cons m rest ih => simp [singlesIn, ih]

theorem singlesIn_wsmItems (c : Nat) (messages : List SingleData) (s e : Nat) :
    singlesIn (wsmItems c messages s e) = (messages.drop s).take (e - s) := by
  by_cases hpos : 0 < e - s
  · rw [wsmItems_of_pos c messages hpos]
    simp only [singlesIn]
    rw [singlesIn_map_single]
  · have hz : e - s = 0 := by omega
    rw [wsmItems_of_zero c messages hz]
    simp [singlesIn, hz]

theorem fragFree_append {xs ys : List PayloadItem}
    (hx : FragFree xs) (hy : FragFree ys) : FragFree (xs ++ ys) := by
  intro f hf
  rcases List.mem_append.mp hf with hm | hm
  · exact hx f hm
  · exact hy f hm

theorem fragFree_nil : FragFree [] := by
  intro f hf
  simp at hf

theorem fragFree_wsmItems (c : Nat) (messages : List SingleData) (s e : Nat) :
    FragFree (wsmItems c messages s e) := by
  intro f hf
  by_cases hpos : 0 < e - s
  · rw [wsmItems_of_pos c messages hpos] at hf
    simp only [List.mem_cons] at hf
    rcases hf with hf | hf | hf
    · exact absurd hf (by simp)
    · exact absurd hf (by simp)
    · obtain ⟨a, -, ha⟩ := List.mem_map.mp hf
      exact absurd ha (by simp)
  · have hz : e - s = 0 := by omega
    rw [wsmItems_of_zero c messages hz] at hf
    simp at hf

theorem can_fit_iff (P : Params) (p : Packet) (size : Nat) :
    p.can_fit P size = true ↔
      payloadLen P p.payload + size + p.prewrittenSize ≤ P.mtu := by
  simp [Packet.can_fit]

theorem can_fit_channel_eq_true (P : Params) (p : Packet) (c : Nat) (p' : Packet)
    (h : p.can_fit_channel P c = (true, p')) :
    p' = { p with prewrittenSize := p.prewrittenSize + (varint_len c + 1) } ∧
      payloadLen P p.payload + (varint_len c + 1) + p.prewrittenSize ≤ P.mtu := by
  simp only [Packet.can_fit_channel] at h
  split at h
  · rename_i hfit
    obtain ⟨-, h2⟩ := Prod.mk.inj h
    exact ⟨h2.symm, (can_fit_iff P p _).mp hfit⟩
  · exact absurd h (by simp)

/-- Full characterization of a successful `pack_loop` call: only the
queue-exhaustion exit returns `Ok`, so the result is the input packet with
the block `messages[s..sorted.length]` committed; capacity is preserved. -/
theorem pack_loop_ok (P : Params) (c : Nat) (sorted : List SingleData) (s : Nat) :
    ∀ (k : Nat) (p : Packet) (e : Nat) (pk : Packet) (s2 : Nat),
    pack_loop P c sorted s k p e = .ok (pk, s2) →
    pk.payload = p.payload ++ wsmItems c sorted s sorted.length ∧
      pk.messageAcks = p.messageAcks ++ wsmAcks c sorted s sorted.length ∧
      pk.packetId = p.packetId ∧
      (payloadLen P p.payload + p.prewrittenSize ≤ P.mtu →
        payloadLen P pk.payload + pk.prewrittenSize ≤ P.mtu) := by
  intro k
  induction k with
  | zero =>
    intro p e pk s2 h
    exact absurd h (by simp [pack_loop])
  | succ k ih =>
    intro p e pk s2 h
    simp only [pack_loop] at h
    split at h
    · rename_i he
      obtain ⟨h1, h2, h3, h4⟩ := write_single_messages_ok p sorted s e c pk s2 h
      rw [he] at h1 h2
      exact ⟨h1, h2, h3, fun hin => le_trans (h4 P) hin⟩
    · split at h
      · exact absurd h (by simp)
      · rename_i m heq
        split at h
        · rename_i hfit
          obtain ⟨h1, h2, h3, h4⟩ := ih _ _ _ _ h
          refine ⟨h1, h2, h3, fun _ => h4 ?_⟩
          have hf := (can_fit_iff P p m.len).mp hfit
          show payloadLen P p.payload + (p.prewrittenSize + m.len) ≤ P.mtu
          omega
        · split at h
          · exact absurd h (by simp)
          · exact absurd h (by simp)

/-- Opening a channel block on a packet via a successful `can_fit_channel`
and then committing with `pack_loop` preserves the open-packet invariant. -/
theorem open_after_pack (P : Params) (c : Nat) (sorted : List SingleData)
    (s k e : Nat) (p p' pk : Packet) (s2 : Nat)
    (hacks : p.messageAcks = acksOfItems 0 p.payload) (hshape : ShapeA p)
    (hcf : p.can_fit_channel P c = (true, p'))
    (hpk : pack_loop P c sorted s k p' e = .ok (pk, s2)) :
    pk.messageAcks = acksOfItems 0 pk.payload ∧ ShapeA pk ∧ plenInv P pk := by
  obtain ⟨hp', hineq⟩ := can_fit_channel_eq_true P p c p' hcf
  subst hp'
  obtain ⟨h1, h2, h3, h4⟩ := pack_loop_ok P c sorted s k _ e pk s2 hpk
  simp only at h1 h2 h4
  refine ⟨?_, ?_, ?_⟩
  · rw [h2, h1, acksOfItems_append, acksOfItems_wsmItems, hacks]
  · obtain ⟨pid, rest, hpay, hff⟩ := hshape
    refine ⟨pid, rest ++ wsmItems c sorted s sorted.length, ?_, ?_⟩
    · rw [h1, hpay]; simp
    · exact fragFree_append hff (fragFree_wsmItems c sorted s sorted.length)
  · exact h4 (by omega)

/-- Weak open-packet invariant (no capacity part; capacity is re-established
by the `can_fit_channel` guard before a packet is reused). -/
def OpenOk (st : Builder) : Prop :=
  ∀ p, st.currentPacket = some p →
    p.messageAcks = acksOfItems 0 p.payload ∧ ShapeA p

theorem openGood_of_none {P : Params} {st : Builder}
    (h : st.currentPacket = none) : OpenGood P st := by
  intro p hp
  rw [h] at hp
  exact absurd hp (by simp)

theorem openOk_of_none {st : Builder} (h : st.currentPacket = none) : OpenOk st := by
  intro p hp
  rw [h] at hp
  exact absurd hp (by simp)

theorem openOk_of_openGood {P : Params} {st : Builder}
    (h : OpenGood P st) : OpenOk st := by
  intro p hp
  obtain ⟨h1, h2, -⟩ := h p hp
  exact ⟨h1, h2⟩

theorem fresh_packet_ok (st : Builder) : OpenOk (build_new_single_packet st) := by
  intro q hq
  simp only [build_new_single_packet] at hq
  obtain rfl := Option.some.inj hq
  exact ⟨by simp [acksOfItems], st.nextPacketId, [], rfl, fragFree_nil⟩

theorem rem_ensure_ok (P : Params) (c : Nat) (st : Builder)
    (hok : OpenOk st) : OpenOk (rem_ensure P c st) := by
  intro q hq
  simp only [rem_ensure] at hq
  split at hq
  · exact fresh_packet_ok st q hq
  · rename_i p heq
    split at hq
    · rename_i p' heq2
      obtain ⟨hp', -⟩ := can_fit_channel_eq_true P p c p' heq2
      have hq' : p' = q := by simpa using hq
      obtain ⟨ha, hs⟩ := hok p heq
      subst hq'
      subst hp'
      exact ⟨ha, hs⟩
    · exact fresh_packet_ok st q hq

/-- Master lemma for `rem_core`: on success it pushes nothing and leaves a
well-formed open packet. -/
theorem rem_core_good (P : Params) (c : Nat) (sorted : List SingleData)
    (st1 : Builder) (packets : List Packet) (s e : Nat)
    (st' : Builder) (pkts' : List Packet)
    (h : rem_core P c sorted st1 packets s e = .ok (st', pkts'))
    (h1 : OpenOk st1) :
    pkts' = packets ∧ OpenGood P st' := by
  simp only [rem_core] at h
  split at h
  · exact absurd h (by simp)
  · rename_i p heq
    split at h
    · exact absurd h (by simp)
    · rename_i p' heq2
      split at h
      · exact absurd h (by simp)
      · rename_i pk s2 heq3
        obtain ⟨hst, hpk⟩ := Prod.mk.inj (Except.ok.inj h)
        obtain ⟨ha, hs⟩ := h1 p heq
        refine ⟨hpk.symm, ?_⟩
        intro q hq
        rw [← hst] at hq
        have hq' : pk = q := by simpa using hq
        subst hq'
        exact open_after_pack P c sorted s _ e p p' pk s2 ha hs heq2 heq3

/-- Master lemma for the fragment stage. -/
theorem frag_loop_good (P : Params) (FF : Nat → FragmentData → Prop) (c : Nat)
    (sorted : List SingleData) :
    ∀ (frags : List FragmentData) (st : Builder) (packets : List Packet)
      (s e : Nat) (out : FragOut),
    frag_loop P c sorted st packets s e frags = .ok out →
    (∀ f ∈ frags, FF c f) → GoodOut P FF packets → st.currentPacket = none →
    (∀ st2 pk2 s2 e2, out = FragOut.toRemaining st2 pk2 s2 e2 →
        GoodOut P FF pk2 ∧ st2.currentPacket = none ∧ s2 = s ∧ e2 = e) ∧
      ∀ st2 pk2, out = FragOut.channelDone st2 pk2 →
        GoodOut P FF pk2 ∧ st2.currentPacket = none := by
  intro frags
  induction frags with
  | nil =>
    intro st packets s e out h hFF hout hcur
    simp only [frag_loop] at h
    obtain rfl := Except.ok.inj h
    constructor
    · intro st2 pk2 s2 e2 hto
      obtain ⟨rfl, rfl, rfl, rfl⟩ := FragOut.toRemaining.inj hto.symm
      exact ⟨hout, hcur, rfl, rfl⟩
    · intro st2 pk2 hco
      exact absurd hco (by simp)
  | cons f rest ih =>
    intro st packets s e out h hFF hout hcur
    simp only [frag_loop] at h
    split at h
    · rename_i hlast
      split at h
      · exact absurd h (by simp)
      · rename_i p heq
        split at h
        · exact absurd h (by simp)
        · rename_i p' heq2
          split at h
          · exact absurd h (by simp)
          · rename_i u heq3
            obtain rfl := Except.ok.inj h
            constructor
            · intro st2 pk2 s2 e2 hto
              exact absurd hto (by simp)
            · intro st2 pk2 hco
              obtain ⟨rfl, rfl⟩ := FragOut.channelDone.inj hco.symm
              exact ⟨hout, rfl⟩
    · rename_i hlast
      split at h
      · exact absurd h (by simp)
      · rename_i pkt st2 heq
        have heq' : finish_packet (build_new_fragment_packet st c f) =
            .ok ((⟨[PayloadItem.header st.nextPacketId,
                PayloadItem.chan c, PayloadItem.frag f],
              [(c, ⟨f.messageId, some f.fragmentId⟩)],
              st.nextPacketId, 0⟩ : Packet),
              (⟨st.nextPacketId + 1, none⟩ : Builder)) := rfl
        rw [heq'] at heq
        obtain ⟨h1, h2⟩ := Prod.mk.inj (Except.ok.inj heq)
        have hgood : GoodOut P FF (packets ++ [pkt]) := by
          intro q hq
          rcases List.mem_append.mp hq with hm | hm
          · exact hout q hm
          · obtain rfl : q = pkt := by simpa using hm
            rw [← h1]
            refine ⟨by simp [acksOfItems], Or.inr ?_⟩
            exact ⟨st.nextPacketId, c, f, rfl, rfl,
              hFF f (List.mem_cons_self f rest)⟩
        have hcur2 : st2.currentPacket = none := by rw [← h2]
        exact ih st2 (packets ++ [pkt]) s e out h
          (fun g hg => hFF g (List.mem_cons_of_mem f hg)) hgood hcur2

/-- Master lemma for one channel iteration. -/
theorem process_channel_good (P : Params) (FF : Nat → FragmentData → Prop)
    (st : Builder) (packets : List Packet) (c : Nat)
    (singles : List SingleData) (frags : List FragmentData)
    (st' : Builder) (pkts' : List Packet)
    (h : process_channel P st packets c singles frags = .ok (st', pkts'))
    (hFF : ∀ f ∈ frags, FF c f)
    (hout : GoodOut P FF packets) (hopen : OpenGood P st) :
    GoodOut P FF pkts' ∧ OpenGood P st' := by
  simp only [process_channel] at h
  split at h
  · rename_i p heq
    split at h
    · exact absurd h (by simp)
    · rename_i p' heq2
      split at h
      · exact absurd h (by simp)
      · rename_i pk s2 heq3
        obtain ⟨hst, hpk⟩ := Prod.mk.inj (Except.ok.inj h)
        obtain ⟨ha, hs, -⟩ := hopen p heq
        refine ⟨hpk ▸ hout, ?_⟩
        intro q hq
        rw [← hst] at hq
        have hq' : pk = q := by simpa using hq
        subst hq'
        exact open_after_pack P c (sortSingles singles) 0 _ 0 p p' pk s2
          ha hs heq2 heq3
  · rename_i heq
    split at h
    · exact absurd h (by simp)
    · rename_i st2 pk2 heqf
      have hfl := frag_loop_good P FF c (sortSingles singles) frags st packets
        0 0 _ heqf hFF hout heq
      obtain ⟨hg, hnone⟩ := hfl.2 st2 pk2 rfl
      obtain ⟨h1, h2⟩ := Prod.mk.inj (Except.ok.inj h)
      exact ⟨h2 ▸ hg, h1 ▸ openGood_of_none hnone⟩
    · rename_i st2 pk2 s2 e2 heqf
      have hfl := frag_loop_good P FF c (sortSingles singles) frags st packets
        0 0 _ heqf hFF hout heq
      obtain ⟨hg, hnone, -, -⟩ := hfl.1 st2 pk2 s2 e2 rfl
      simp only [rem_phase] at h
      obtain ⟨hpkts, hopen'⟩ := rem_core_good P c (sortSingles singles) _ pk2
        s2 e2 st' pkts' h (rem_ensure_ok P c st2 (openOk_of_none hnone))
      exact ⟨hpkts ▸ hg, hopen'⟩

/-- Master lemma for the channel fold. -/
theorem process_channels_good (P : Params) (FF : Nat → FragmentData → Prop) :
    ∀ (input : List (Nat × List SingleData × List FragmentData))
      (st : Builder) (packets : List Packet) (st' : Builder)
      (pkts' : List Packet),
    process_channels P st packets input = .ok (st', pkts') →
    (∀ x ∈ input, ∀ f ∈ x.2.2, FF x.1 f) →
    GoodOut P FF packets → OpenGood P st →
    GoodOut P FF pkts' ∧ OpenGood P st' := by
  intro input
  induction input with
  | nil =>
    intro st packets st' pkts' h hFF hout hopen
    simp only [process_channels] at h
    obtain ⟨h1, h2⟩ := Prod.mk.inj (Except.ok.inj h)
    exact ⟨h2 ▸ hout, h1 ▸ hopen⟩
  | cons x rest ih =>
    obtain ⟨c, singles, frags⟩ := x
    intro st packets st' pkts' h hFF hout hopen
    simp only [process_channels] at h
    split at h
    · exact absurd h (by simp)
    · rename_i st1 pkts1 heq
      obtain ⟨hg1, ho1⟩ := process_channel_good P FF st packets c singles frags
        st1 pkts1 heq
        (fun f hf => hFF (c, singles, frags) (List.mem_cons_self _ _) f hf)
        hout hopen
      exact ih st1 pkts1 st' pkts' h
        (fun y hy => hFF y (List.mem_cons_of_mem _ hy)) hg1 ho1

/-- Master lemma for `build_packets`: when the build succeeds from a builder
with no carried-over packet, every output packet satisfies the master
invariant, and the final builder is empty. -/
theorem build_packets_good (P : Params) (FF : Nat → FragmentData → Prop)
    (st0 : Builder) (input : List (Nat × List SingleData × List FragmentData))
    (pkts : List Packet) (st' : Builder)
    (h : build_packets P st0 input = .ok (pkts, st'))
    (hFF : ∀ x ∈ input, ∀ f ∈ x.2.2, FF x.1 f)
    (hcur : st0.currentPacket = none) :
    GoodOut P FF pkts ∧ st'.currentPacket = none := by
  simp only [build_packets] at h
  split at h
  · exact absurd h (by simp)
  · rename_i st1 pkts1 heq
    obtain ⟨hg, ho⟩ := process_channels_good P FF input st0 [] st1 pkts1 heq
      hFF (by intro pkt hpkt; exact absurd hpkt (by simp))
      (openGood_of_none hcur)
    split at h
    · rename_i q heq2
      split at h
      · exact absurd h (by simp)
      · rename_i pkt st2 heq3
        simp only [finish_packet, heq2] at heq3
        obtain ⟨h1, h2⟩ := Prod.mk.inj (Except.ok.inj heq3)
        obtain ⟨h3, h4⟩ := Prod.mk.inj (Except.ok.inj h)
        constructor
        · rw [← h3]
          intro pkt' hp'
          rcases List.mem_append.mp hp' with hm | hm
          · exact hg pkt' hm
          · obtain rfl : pkt' = pkt := by simpa using hm
            obtain ⟨ha, hs, hinv⟩ := ho q heq2
            rw [← h1]
            exact ⟨ha, Or.inl ⟨hs, hinv⟩⟩
        · rw [← h4, ← h2]
    · rename_i heq2
      obtain ⟨h1, h2⟩ := Prod.mk.inj (Except.ok.inj h)
      exact ⟨h1 ▸ hg, h2 ▸ heq2⟩

/-- Full characterization of a successful `rem_core` call. -/
theorem rem_core_char (P : Params) (c : Nat) (sorted : List SingleData)
    (st1 : Builder) (packets : List Packet) (s e : Nat)
    (st' : Builder) (pkts' : List Packet)
    (h : rem_core P c sorted st1 packets s e = .ok (st', pkts')) :
    pkts' = packets ∧
      ∃ p p' pk s2, st1.currentPacket = some p ∧
        p.can_fit_channel P c = (true, p') ∧
        pack_loop P c sorted s (sorted.length - e + 1) p' e = .ok (pk, s2) ∧
        st' = { st1 with currentPacket := some pk } := by
  simp only [rem_core] at h
  split at h
  · exact absurd h (by simp)
  · rename_i p heq
    split at h
    · exact absurd h (by simp)
    · rename_i p' heq2
      split at h
      · exact absurd h (by simp)
      · rename_i pk s2 heq3
        obtain ⟨hst, hpk⟩ := Prod.mk.inj (Except.ok.inj h)
        exact ⟨hpk.symm, p, p', pk, s2, heq, heq2, heq3, hst.symm⟩

theorem packetsItems_nil : packetsItems [] = [] := rfl

theorem packetsItems_cons (p : Packet) (l : List Packet) :
    packetsItems (p :: l) = p.payload ++ packetsItems l := by
  simp [packetsItems]

theorem packetsItems_append (a b : List Packet) :
    packetsItems (a ++ b) = packetsItems a ++ packetsItems b := by
  simp [packetsItems]

theorem allItems_some {st : Builder} {p : Packet} (pkts : List Packet)
    (h : st.currentPacket = some p) :
    allItems st pkts = packetsItems pkts ++ p.payload := by
  simp [allItems, h]

theorem allItems_none {st : Builder} (pkts : List Packet)
    (h : st.currentPacket = none) :
    allItems st pkts = packetsItems pkts := by
  simp [allItems, h]

theorem chanSinglesIn_append (c : Nat) (xs : List PayloadItem) :
    ∀ (cur : Nat) (ys : List PayloadItem),
    chanSinglesIn c cur (xs ++ ys) =
      chanSinglesIn c cur xs ++ chanSinglesIn c (chanState cur xs) ys := by
  induction xs with
  | nil => intro cur ys; simp [chanSinglesIn, chanState]
  | cons x rest ih =>
    intro cur ys
    cases x with
    | header pid => simp [chanSinglesIn, chanState, ih]
    | chan c2 => simp [chanSinglesIn, chanState, ih]
    | count n => simp [chanSinglesIn, chanState, ih]
    | frag f => simp [chanSinglesIn, chanState, ih]
    | single m =>
      by_cases hc : cur = c
      · simp [chanSinglesIn, chanState, hc, ih]
      · simp [chanSinglesIn, chanState, hc, ih]

theorem chanSinglesIn_map_single (c cur : Nat) (l : List SingleData) :
    chanSinglesIn c cur (l.map PayloadItem.single) =
      if cur = c then l else [] := by
  induction l with
  | nil => simp [chanSinglesIn]
  | cons m rest ih =>
    by_cases hc : cur = c
    · subst hc
      simp [chanSinglesIn, ih]
    · simp only [List.map_cons, chanSinglesIn, if_neg hc, ih]

theorem chanSinglesIn_wsmItems_self (c cur : Nat) (messages : List SingleData)
    (s e : Nat) :
    chanSinglesIn c cur (wsmItems c messages s e) =
      (messages.drop s).take (e - s) := by
  by_cases hpos : 0 < e - s
  · rw [wsmItems_of_pos c messages hpos]
    simp only [chanSinglesIn]
    rw [chanSinglesIn_map_single]
    simp
  · have hz : e - s = 0 := by omega
    rw [wsmItems_of_zero c messages hz]
    simp [chanSinglesIn, hz]

theorem chanSinglesIn_wsmItems_other {c c' : Nat} (hne : c' ≠ c) (cur : Nat)
    (messages : List SingleData) (s e : Nat) :
    chanSinglesIn c cur (wsmItems c' messages s e) = [] := by
  by_cases hpos : 0 < e - s
  · rw [wsmItems_of_pos c' messages hpos]
    simp only [chanSinglesIn]
    rw [chanSinglesIn_map_single]
    simp [hne]
  · have hz : e - s = 0 := by omega
    rw [wsmItems_of_zero c' messages hz]
    simp [chanSinglesIn]

theorem chanSinglesIn_fragShaped (c : Nat) (l : List Packet) :
    ∀ cur : Nat,
    (∀ q ∈ l, ∃ pid c0 f, q.payload = [PayloadItem.header pid,
      PayloadItem.chan c0, PayloadItem.frag f]) →
    chanSinglesIn c cur (packetsItems l) = [] := by
  induction l with
  | nil => intro cur _; simp [packetsItems, chanSinglesIn]
  | cons q rest ih =>
    intro cur hq
    rw [packetsItems_cons, chanSinglesIn_append]
    obtain ⟨pid, c0, f, hpay⟩ := hq q (List.mem_cons_self q rest)
    rw [hpay]
    rw [show chanSinglesIn c cur [PayloadItem.header pid, PayloadItem.chan c0,
      PayloadItem.frag f] = [] from by simp [chanSinglesIn]]
    rw [List.nil_append]
    exact ih _ (fun q' h' => hq q' (List.mem_cons_of_mem _ h'))

/-- Payload-shape characterization of the fragment stage: on success it
appends only fragment-shaped packets, keeps the slot empty and passes the
message indices through. -/
theorem frag_loop_char (P : Params) (c : Nat) (sorted : List SingleData) :
    ∀ (frags : List FragmentData) (st : Builder) (packets : List Packet)
      (s e : Nat) (out : FragOut),
    frag_loop P c sorted st packets s e frags = .ok out →
    st.currentPacket = none →
    (∀ st2 pk2 s2 e2, out = FragOut.toRemaining st2 pk2 s2 e2 →
        ∃ newPkts, pk2 = packets ++ newPkts ∧
          (∀ q ∈ newPkts, ∃ pid f, q.payload = [PayloadItem.header pid,
            PayloadItem.chan c, PayloadItem.frag f]) ∧
          st2.currentPacket = none ∧ s2 = s ∧ e2 = e) ∧
      ∀ st2 pk2, out = FragOut.channelDone st2 pk2 →
        ∃ newPkts, pk2 = packets ++ newPkts ∧
          (∀ q ∈ newPkts, ∃ pid f, q.payload = [PayloadItem.header pid,
            PayloadItem.chan c, PayloadItem.frag f]) ∧
          st2.currentPacket = none := by
  intro frags
  induction frags with
  | nil =>
    intro st packets s e out h hcur
    simp only [frag_loop] at h
    obtain rfl := Except.ok.inj h
    constructor
    · intro st2 pk2 s2 e2 hto
      obtain ⟨rfl, rfl, rfl, rfl⟩ := FragOut.toRemaining.inj hto.symm
      exact ⟨[], by simp, fun q hq => absurd hq (by simp), hcur, rfl, rfl⟩
    · intro st2 pk2 hco
      exact absurd hco (by simp)
  | cons f rest ih =>
    intro st packets s e out h hcur
    simp only [frag_loop] at h
    split at h
    · rename_i hlast
      split at h
      · exact absurd h (by simp)
      · rename_i p heq
        split at h
        · exact absurd h (by simp)
        · rename_i p' heq2
          split at h
          · exact absurd h (by simp)
          · rename_i u heq3
            obtain rfl := Except.ok.inj h
            constructor
            · intro st2 pk2 s2 e2 hto
              exact absurd hto (by simp)
            · intro st2 pk2 hco
              obtain ⟨rfl, rfl⟩ := FragOut.channelDone.inj hco.symm
              exact ⟨[], by simp, fun q hq => absurd hq (by simp), rfl⟩
    · rename_i hlast
      split at h
      · exact absurd h (by simp)
      · rename_i pkt st2 heq
        have heq' : finish_packet (build_new_fragment_packet st c f) =
            .ok ((⟨[PayloadItem.header st.nextPacketId,
                PayloadItem.chan c, PayloadItem.frag f],
              [(c, ⟨f.messageId, some f.fragmentId⟩)],
              st.nextPacketId, 0⟩ : Packet),
              (⟨st.nextPacketId + 1, none⟩ : Builder)) := rfl
        rw [heq'] at heq
        obtain ⟨h1, h2⟩ := Prod.mk.inj (Except.ok.inj heq)
        have hcur2 : st2.currentPacket = none := by rw [← h2]
        obtain ⟨hto, hco⟩ := ih st2 (packets ++ [pkt]) s e out h hcur2
        constructor
        · intro st3 pk3 s3 e3 hout
          obtain ⟨newPkts, hpk, hshape, hc3, hs3, he3⟩ := hto st3 pk3 s3 e3 hout
          refine ⟨pkt :: newPkts, by rw [hpk]; simp, ?_, hc3, hs3, he3⟩
          intro q hq
          rcases List.mem_cons.mp hq with hm | hm
          · subst hm
            exact ⟨st.nextPacketId, f, by rw [← h1]⟩
          · exact hshape q hm
        · intro st3 pk3 hout
          obtain ⟨newPkts, hpk, hshape, hc3⟩ := hco st3 pk3 hout
          refine ⟨pkt :: newPkts, by rw [hpk]; simp, ?_, hc3⟩
          intro q hq
          rcases List.mem_cons.mp hq with hm | hm
          · subst hm
            exact ⟨st.nextPacketId, f, by rw [← h1]⟩
          · exact hshape q hm

/-- Item-stream characterization of one channel iteration: everything the
channel appends lives in a suffix `X` that holds no other channel's single
messages, and — when the channel has no fragments — holds exactly its sorted
single queue. -/
theorem process_channel_items (P : Params) (st : Builder)
    (packets : List Packet) (c0 : Nat) (singles : List SingleData)
    (frags : List FragmentData) (st' : Builder) (pkts' : List Packet)
    (h : process_channel P st packets c0 singles frags = .ok (st', pkts')) :
    ∃ X : List PayloadItem,
      allItems st' pkts' = allItems st packets ++ X ∧
        (∀ c cur, c ≠ c0 → chanSinglesIn c cur X = []) ∧
        (frags = [] → ∀ cur, chanSinglesIn c0 cur X = sortSingles singles) := by
  simp only [process_channel] at h
  split at h
  · rename_i p heq
    split at h
    · exact absurd h (by simp)
    · rename_i p' heq2
      split at h
      · exact absurd h (by simp)
      · rename_i pk s2 heq3
        obtain ⟨hst, hpk⟩ := Prod.mk.inj (Except.ok.inj h)
        obtain ⟨hpay, -, -, -⟩ := pack_loop_ok P c0 (sortSingles singles) 0 _ _
          0 pk s2 heq3
        obtain ⟨hp', -⟩ := can_fit_channel_eq_true P p c0 p' heq2
        refine ⟨wsmItems c0 (sortSingles singles) 0 (sortSingles singles).length,
          ?_, ?_, ?_⟩
        · rw [← hst, ← hpk]
          rw [allItems_some packets (show ({ st with currentPacket := some pk } :
            Builder).currentPacket = some pk from rfl)]
          rw [allItems_some packets heq]
          rw [hpay, hp']
          simp [List.append_assoc]
        · intro c cur hne
          exact chanSinglesIn_wsmItems_other (fun hcc => hne hcc.symm) cur _ 0 _
        · intro _ cur
          rw [chanSinglesIn_wsmItems_self]
          simp [List.take_length]
  · rename_i heq
    split at h
    · exact absurd h (by simp)
    · rename_i st2 pk2 heqf
      obtain ⟨-, hco⟩ := frag_loop_char P c0 (sortSingles singles) frags st
        packets 0 0 _ heqf heq
      obtain ⟨newPkts, hpknew, hshape, hcur2⟩ := hco st2 pk2 rfl
      obtain ⟨h1, h2⟩ := Prod.mk.inj (Except.ok.inj h)
      refine ⟨packetsItems newPkts, ?_, ?_, ?_⟩
      · rw [← h1, ← h2, allItems_none pk2 hcur2, allItems_none packets heq,
          hpknew, packetsItems_append]
      · intro c cur hne
        exact chanSinglesIn_fragShaped c newPkts cur
          (fun q hq => (hshape q hq).imp fun pid ⟨f, hf⟩ => ⟨c0, f, hf⟩)
      · intro hfr cur
        exfalso
        subst hfr
        simp only [frag_loop] at heqf
        exact absurd (Except.ok.inj heqf) (by simp)
    · rename_i st2 pk2 s2 e2 heqf
      obtain ⟨hto, -⟩ := frag_loop_char P c0 (sortSingles singles) frags st
        packets 0 0 _ heqf heq
      obtain ⟨newPkts, hpknew, hshape, hcur2, hs2, he2⟩ :=
        hto st2 pk2 s2 e2 rfl
      simp only [rem_phase] at h
      obtain ⟨hpkts, p, p', pk, s3, hcurp, hcf, hpl, hst'⟩ :=
        rem_core_char P c0 (sortSingles singles) _ pk2 s2 e2 st' pkts' h
      have hens : (rem_ensure P c0 st2).currentPacket =
          some (⟨[PayloadItem.header st2.nextPacketId], [],
            st2.nextPacketId, 0⟩ : Packet) := by
        simp [rem_ensure, hcur2, build_new_single_packet]
      rw [hens] at hcurp
      obtain rfl := (Option.some.inj hcurp).symm
      obtain ⟨hp', -⟩ := can_fit_channel_eq_true P _ c0 p' hcf
      obtain ⟨hpay, -, -, -⟩ := pack_loop_ok P c0 (sortSingles singles) s2 _ _
        e2 pk s3 hpl
      subst hs2
      refine ⟨packetsItems newPkts ++ [PayloadItem.header st2.nextPacketId] ++
        wsmItems c0 (sortSingles singles) 0 (sortSingles singles).length,
        ?_, ?_, ?_⟩
      · rw [hst']
        rw [allItems_some pkts' (show ({ rem_ensure P c0 st2 with
            currentPacket := some pk } : Builder).currentPacket = some pk
          from rfl)]
        rw [hpkts, hpknew, allItems_none packets heq, hpay, hp']
        rw [packetsItems_append]
        simp [List.append_assoc]
      · intro c cur hne
        rw [chanSinglesIn_append, chanSinglesIn_append]
        rw [chanSinglesIn_fragShaped c newPkts cur
          (fun q hq => (hshape q hq).imp fun pid ⟨f, hf⟩ => ⟨c0, f, hf⟩)]
        rw [show ∀ cur2, chanSinglesIn c cur2
            [PayloadItem.header st2.nextPacketId] = [] from
          fun cur2 => by simp [chanSinglesIn]]
        rw [chanSinglesIn_wsmItems_other (fun hcc => hne hcc.symm)]
        simp
      · intro _ cur
        rw [chanSinglesIn_append, chanSinglesIn_append]
        rw [chanSinglesIn_fragShaped c0 newPkts cur
          (fun q hq => (hshape q hq).imp fun pid ⟨f, hf⟩ => ⟨c0, f, hf⟩)]
        rw [show ∀ cur2, chanSinglesIn c0 cur2
            [PayloadItem.header st2.nextPacketId] = [] from
          fun cur2 => by simp [chanSinglesIn]]
        rw [chanSinglesIn_wsmItems_self]
        simp [List.take_length]

/-- Channels with other ids never touch channel `c`'s recoverable single
messages. -/
theorem process_channels_other (P : Params) :
    ∀ (input : List (Nat × List SingleData × List FragmentData))
      (st : Builder) (packets : List Packet) (st' : Builder)
      (pkts' : List Packet),
    process_channels P st packets input = .ok (st', pkts') →
    ∀ c : Nat, (∀ x ∈ input, x.1 ≠ c) →
    chanSinglesIn c 0 (allItems st' pkts') =
      chanSinglesIn c 0 (allItems st packets) := by
  intro input
  induction input with
  | nil =>
    intro st packets st' pkts' h c hne
    simp only [process_channels] at h
    obtain ⟨h1, h2⟩ := Prod.mk.inj (Except.ok.inj h)
    rw [← h1, ← h2]
  | cons x rest ih =>
    obtain ⟨c0, s0, f0⟩ := x
    intro st packets st' pkts' h c hne
    simp only [process_channels] at h
    split at h
    · exact absurd h (by simp)
    · rename_i st1 pkts1 heqc
      obtain ⟨X, hX, hother, -⟩ := process_channel_items P st packets c0 s0 f0
        st1 pkts1 heqc
      rw [ih st1 pkts1 st' pkts' h c
        (fun y hy => hne y (List.mem_cons_of_mem _ hy))]
      rw [hX, chanSinglesIn_append,
        hother c _ (Ne.symm (hne (c0, s0, f0) (List.mem_cons_self _ _))),
        List.append_nil]

/-- Every fragment-free channel of a successful multi-channel build (with
distinct channel ids, as a `BTreeMap` iteration guarantees) contributes
exactly its sorted single queue to the output item stream. -/
theorem process_channels_sorted (P : Params) :
    ∀ (input : List (Nat × List SingleData × List FragmentData))
      (st : Builder) (packets : List Packet) (st' : Builder)
      (pkts' : List Packet),
    process_channels P st packets input = .ok (st', pkts') →
    List.Pairwise (fun x y => x.1 ≠ y.1) input →
    ∀ (c : Nat) (singles : List SingleData),
      (c, singles, ([] : List FragmentData)) ∈ input →
    chanSinglesIn c 0 (allItems st' pkts') =
      chanSinglesIn c 0 (allItems st packets) ++ sortSingles singles := by
  intro input
  induction input with
  | nil =>
    intro st packets st' pkts' h hpw c singles hmem
    exact absurd hmem (by simp)
  | cons x rest ih =>
    obtain ⟨c0, s0, f0⟩ := x
    intro st packets st' pkts' h hpw c singles hmem
    simp only [process_channels] at h
    split at h
    · exact absurd h (by simp)
    · rename_i st1 pkts1 heqc
      obtain ⟨X, hX, hother, hself⟩ := process_channel_items P st packets c0 s0
        f0 st1 pkts1 heqc
      rcases List.mem_cons.mp hmem with hm | hm
      · obtain ⟨hc0, hrest⟩ := Prod.mk.inj hm
        obtain ⟨hs0, hf0⟩ := Prod.mk.inj hrest
        subst hc0
        subst hs0
        rw [process_channels_other P rest st1 pkts1 st' pkts' h c
          (fun y hy => ((List.pairwise_cons.mp hpw).1 y hy).symm)]
        rw [hX, chanSinglesIn_append, hself hf0.symm]
      · have hne : c ≠ c0 := by
          have := (List.pairwise_cons.mp hpw).1 (c, singles, []) hm
          exact fun hcc => this hcc.symm
        rw [ih st1 pkts1 st' pkts' h (List.pairwise_cons.mp hpw).2 c singles hm]
        rw [hX, chanSinglesIn_append, hother c _ hne, List.append_nil]

/-! ### Claim theorems -/

/-- C1 (code bug): `build_packets` loses messages.  On a channel holding one
fragment (the last of its message) and no single messages, the call returns
`Ok` with an *empty* packet list: at queue exhaustion the last-fragment fill
loop does `continue 'outer` without storing the fragment packet back into
`current_packet` (packet_builder.rs line 235), so the fragment is dropped
and the multiset of recoverable messages is not preserved. -/
theorem claim_C1_fragment_lost :
    c1frag.is_last_fragment = true ∧
      buildOutputPackets genParams freshBuilder c1in = some [] := by
  exact ⟨rfl, rfl⟩

/-- C2 (code bug): when the last fragment's packet has been opened and the
channel's single-message queue is exhausted while filling it, the code does
*not* keep the packet open: `continue 'outer` at line 235 drops the local
`packet` variable without restoring `self.current_packet`, so neither the
fragment nor the reserved single message is ever emitted — the build returns
`Ok` with no packets at all. -/
theorem claim_C2_last_fragment_dropped :
    c2frag.is_last_fragment = true ∧
      buildOutputPackets genParams freshBuilder c2in = some [] := by
  exact ⟨rfl, rfl⟩

/-- C3 (code bug): when a packet carried over from the previous channel
cannot fit the next channel's header, line 176 calls
`packets.push(self.finish_packet())` — but `current_packet` was already
`take()`n at line 172, so `finish_packet` unwraps `None` and panics instead
of closing the packet and returning normally.  (The first-message-does-not-
fit path at lines 204-211 panics the same way.) -/
theorem claim_C3_panic_on_full_carryover :
    buildOutputError tightParams freshBuilder c3in = some BuildError.panicked := by
  exact rfl

/-- C4 (code bug): a channel whose queues are both empty does *not* produce
zero packets: the remaining-singles stage unconditionally opens a fresh
packet and `write_single_messages` writes the channel id (line 340) even for
an empty range, so an input consisting of one empty channel yields one
packet whose payload is header plus that channel's id byte. -/
theorem claim_C4_empty_channel_emits_packet :
    buildOutputPackets genParams freshBuilder c4in =
      some [{ payload := [PayloadItem.header 0, PayloadItem.chan 0],
              messageAcks := [], packetId := 0, prewrittenSize := 0 }] := by
  exact rfl

/-- C6 counterexample: the claim asserts every non-last fragment occupies an
output packet.  Here channel 0 leaves a packet open, so channel 1 is handled
by the drain stage, which exhausts the empty single queue and does
`continue 'outer` (line 191) — skipping channel 1's fragment stage entirely.
The build returns `Ok`, yet no output packet contains any fragment, although
the input held the non-last fragment `c6frag0`. -/
theorem claim_C6_counterexample :
    c6frag0.is_last_fragment = false ∧
      (buildOutputPackets genParams freshBuilder c6in).map
        (fun pkts => fragsIn (packetsItems pkts)) = some [] := by
  exact ⟨rfl, rfl⟩

/-- C7 counterexample: the claim asserts every fragment produces exactly one
acknowledgment record attached to the packet containing its bytes.  In this
`Ok` run the fragments of channel 3 are skipped by the drain stage, so the
whole output carries a single acknowledgment record — the one of the id-5
single message — and no record with a fragment id at all. -/
theorem claim_C7_counterexample :
    (buildOutputPackets genParams freshBuilder c7in).map
        (fun pkts => (pkts.map Packet.messageAcks).flatten) =
      some [(2, ⟨5, none⟩)] ∧
      (buildOutputPackets genParams freshBuilder c7in).map
        (fun pkts => ((pkts.map Packet.messageAcks).flatten.countP
          fun a => a.2.fragmentId.isSome)) = some 0 := by
  exact ⟨rfl, rfl⟩

/-- C5: capacity bound.  For every successful build started with no
carried-over packet, and whose input fragments satisfy the fragment-size
contract (`debug_assert!(bytes.len() <= FRAGMENT_SIZE)` and `FRAGMENT_SIZE`
being chosen so a fragment packet fits the MTU — that constant's file is not
among the sources), every output packet's payload length is at most the
maximum payload size, and even `payload.len() + prewritten_size` is bounded
by it (reservations are only made under `can_fit`). -/
theorem claim_C5_capacity_bound (P : Params) (st0 : Builder)
    (input : List (Nat × List SingleData × List FragmentData))
    (pkts : List Packet) (st' : Builder)
    (hfrag : ∀ x ∈ input, ∀ f ∈ x.2.2,
      P.headerLen + varint_len x.1 + f.len ≤ P.mtu)
    (hcur : st0.currentPacket = none)
    (h : build_packets P st0 input = .ok (pkts, st')) :
    (∀ pkt ∈ pkts, payloadLen P pkt.payload ≤ P.mtu) ∧
      ∀ pkt ∈ pkts, payloadLen P pkt.payload + pkt.prewrittenSize ≤ P.mtu := by
  have hg := (build_packets_good P
    (fun cc ff => P.headerLen + varint_len cc + ff.len ≤ P.mtu)
    st0 input pkts st' h hfrag hcur).1
  have hmain : ∀ pkt ∈ pkts,
      payloadLen P pkt.payload + pkt.prewrittenSize ≤ P.mtu := by
    intro pkt hp
    obtain ⟨-, hdisj⟩ := hg pkt hp
    rcases hdisj with ⟨-, hinv⟩ | ⟨pid, cc, ff, hpay, hpre, hb⟩
    · exact hinv
    · rw [hpay, hpre]
      have hlen : payloadLen P [PayloadItem.header pid, PayloadItem.chan cc,
          PayloadItem.frag ff] = P.headerLen + varint_len cc + ff.len := by
        simp [payloadLen, itemLen]
        omega
      omega
  exact ⟨fun pkt hp => le_trans (Nat.le_add_right _ _) (hmain pkt hp), hmain⟩

/-- C5 witness: a build containing one (non-last) fragment packet and one
single-message packet, both within the MTU. -/
theorem claim_C5_capacity_bound_witness :
    (∀ x ∈ c5in, ∀ f ∈ x.2.2,
      genParams.headerLen + varint_len x.1 + f.len ≤ genParams.mtu) ∧
      freshBuilder.currentPacket = none ∧
      build_packets genParams freshBuilder c5in =
        .ok ([⟨[PayloadItem.header 0, PayloadItem.chan 0, PayloadItem.frag c5frag],
                [(0, ⟨3, some 0⟩)], 0, 0⟩,
              ⟨[PayloadItem.header 1, PayloadItem.chan 0], [], 1, 0⟩],
             ⟨2, none⟩) ∧
      ((∀ pkt ∈ [(⟨[PayloadItem.header 0, PayloadItem.chan 0,
              PayloadItem.frag c5frag], [(0, ⟨3, some 0⟩)], 0, 0⟩ : Packet),
            ⟨[PayloadItem.header 1, PayloadItem.chan 0], [], 1, 0⟩],
          payloadLen genParams pkt.payload ≤ genParams.mtu) ∧
        ∀ pkt ∈ [(⟨[PayloadItem.header 0, PayloadItem.chan 0,
              PayloadItem.frag c5frag], [(0, ⟨3, some 0⟩)], 0, 0⟩ : Packet),
            ⟨[PayloadItem.header 1, PayloadItem.chan 0], [], 1, 0⟩],
          payloadLen genParams pkt.payload + pkt.prewrittenSize ≤ genParams.mtu) :=
  ⟨by decide, rfl, rfl,
    claim_C5_capacity_bound genParams freshBuilder c5in _ ⟨2, none⟩
      (by decide) rfl rfl⟩

/-- C6 (amended): fragment isolation, restricted to fragments that actually
reach the output.  In every successful build started with no carried-over
packet, any output packet containing a fragment consists of exactly the
header, the channel id and that fragment — so no fragment ever shares a
packet with other content, and no fragment is appended to a pre-existing
packet. -/
theorem claim_C6_fragment_isolation (P : Params) (st0 : Builder)
    (input : List (Nat × List SingleData × List FragmentData))
    (pkts : List Packet) (st' : Builder)
    (hcur : st0.currentPacket = none)
    (h : build_packets P st0 input = .ok (pkts, st')) :
    ∀ pkt ∈ pkts, ∀ f : FragmentData, PayloadItem.frag f ∈ pkt.payload →
      ∃ pid c, pkt.payload = [PayloadItem.header pid, PayloadItem.chan c,
        PayloadItem.frag f] := by
  have hg := (build_packets_good P (fun _ _ => True) st0 input pkts st' h
    (fun x _ f _ => trivial) hcur).1
  intro pkt hp f hf
  obtain ⟨-, hdisj⟩ := hg pkt hp
  rcases hdisj with ⟨⟨pid, rest, hpay, hff⟩, -⟩ | ⟨pid, c, f', hpay, -, -⟩
  · rw [hpay] at hf
    rcases List.mem_cons.mp hf with h1 | h1
    · exact absurd h1 (by simp)
    · exact absurd h1 (hff f)
  · rw [hpay] at hf
    have hf' : f = f' := by
      rcases List.mem_cons.mp hf with h1 | h1
      · exact absurd h1 (by simp)
      rcases List.mem_cons.mp h1 with h2 | h2
      · exact absurd h2 (by simp)
      rcases List.mem_cons.mp h2 with h3 | h3
      · exact PayloadItem.frag.inj h3
      · exact absurd h3 (by simp)
    exact ⟨pid, c, by rw [hpay, hf']⟩

/-- C6 witness: a run emitting one isolated non-last fragment packet. -/
theorem claim_C6_fragment_isolation_witness :
    freshBuilder.currentPacket = none ∧
      build_packets genParams freshBuilder [(1, [], [⟨8, 0, 3, [5]⟩])] =
        .ok ([⟨[PayloadItem.header 0, PayloadItem.chan 1,
                PayloadItem.frag ⟨8, 0, 3, [5]⟩], [(1, ⟨8, some 0⟩)], 0, 0⟩,
              ⟨[PayloadItem.header 1, PayloadItem.chan 1], [], 1, 0⟩],
             ⟨2, none⟩) ∧
      ∀ pkt ∈ [(⟨[PayloadItem.header 0, PayloadItem.chan 1,
            PayloadItem.frag ⟨8, 0, 3, [5]⟩], [(1, ⟨8, some 0⟩)], 0, 0⟩ : Packet),
          ⟨[PayloadItem.header 1, PayloadItem.chan 1], [], 1, 0⟩],
        ∀ f : FragmentData, PayloadItem.frag f ∈ pkt.payload →
          ∃ pid c, pkt.payload = [PayloadItem.header pid, PayloadItem.chan c,
            PayloadItem.frag f] :=
  ⟨rfl, rfl,
    claim_C6_fragment_isolation genParams freshBuilder
      [(1, [], [⟨8, 0, 3, [5]⟩])] _ ⟨2, none⟩ rfl rfl⟩

/-- C7 (amended): acknowledgment correspondence, restricted to messages and
fragments that actually reach the output.  In every successful build started
with no carried-over packet, each output packet's `message_acks` list is
exactly the records derived from its own payload: one record per contained
fragment and per contained single message carrying an id (tagged with the
channel id in effect), in payload order, and nothing for id-less
messages. -/
theorem claim_C7_ack_correspondence (P : Params) (st0 : Builder)
    (input : List (Nat × List SingleData × List FragmentData))
    (pkts : List Packet) (st' : Builder)
    (hcur : st0.currentPacket = none)
    (h : build_packets P st0 input = .ok (pkts, st')) :
    ∀ pkt ∈ pkts, pkt.messageAcks = acksOfItems 0 pkt.payload := by
  have hg := (build_packets_good P (fun _ _ => True) st0 input pkts st' h
    (fun x _ f _ => trivial) hcur).1
  exact fun pkt hp => (hg pkt hp).1

/-- C7 witness: one packet holding one id-carrying message, whose ack list
matches its payload. -/
theorem claim_C7_ack_correspondence_witness :
    freshBuilder.currentPacket = none ∧
      build_packets genParams freshBuilder [(0, [⟨some 4, [1]⟩], [])] =
        .ok ([⟨[PayloadItem.header 0, PayloadItem.chan 0, PayloadItem.count 1,
                PayloadItem.single ⟨some 4, [1]⟩], [(0, ⟨4, none⟩)], 0, 0⟩],
             ⟨1, none⟩) ∧
      ∀ pkt ∈ [(⟨[PayloadItem.header 0, PayloadItem.chan 0, PayloadItem.count 1,
            PayloadItem.single ⟨some 4, [1]⟩], [(0, ⟨4, none⟩)], 0, 0⟩ : Packet)],
        pkt.messageAcks = acksOfItems 0 pkt.payload :=
  ⟨rfl, rfl,
    claim_C7_ack_correspondence genParams freshBuilder
      [(0, [⟨some 4, [1]⟩], [])] _ ⟨1, none⟩ rfl rfl⟩

/-- C9: a commit whose decrement would make `prewritten_size` negative fails
fast with `SerializationError::SubstractionOverflow` instead of wrapping:
both the channel-prefix `checked_sub` (lines 341-344) and the per-message
`checked_sub` (lines 352-355) return the error, which the `?` operators in
`build_packets` propagate, so no partial packet list reaches the caller. -/
theorem claim_C9_underflow_error :
    (∀ (p : Packet) (messages : List SingleData) (s e c : Nat),
        p.prewrittenSize < varint_len c + 1 →
          write_single_messages p messages s e c =
            .error BuildError.subOverflow) ∧
      ∀ (p : Packet) (c : Nat) (m : SingleData) (rest : List SingleData),
        p.prewrittenSize < m.len →
          write_msgs p c (m :: rest) = .error BuildError.subOverflow := by
  constructor
  · intro p messages s e c h
    simp [write_single_messages, Nat.not_le.mpr h]
  · intro p c m rest h
    simp [write_msgs, Nat.not_le.mpr h]

/-- C9 witness: both underflow checks fire on a packet with an empty
reservation counter. -/
theorem claim_C9_underflow_error_witness :
    (({ payload := [], messageAcks := [], packetId := 0, prewrittenSize := 0 } :
        Packet).prewrittenSize < varint_len 0 + 1 ∧
      write_single_messages
          { payload := [], messageAcks := [], packetId := 0, prewrittenSize := 0 }
          [] 0 0 0 = .error BuildError.subOverflow) ∧
      (({ payload := [], messageAcks := [], packetId := 0, prewrittenSize := 0 } :
        Packet).prewrittenSize < SingleData.len ⟨none, []⟩ ∧
      write_msgs
          { payload := [], messageAcks := [], packetId := 0, prewrittenSize := 0 }
          0 [⟨none, []⟩] = .error BuildError.subOverflow) :=
  ⟨⟨by decide, claim_C9_underflow_error.1 _ [] 0 0 0 (by decide)⟩,
   ⟨by decide, claim_C9_underflow_error.2 _ 0 ⟨none, []⟩ [] (by decide)⟩⟩

/-- C10: whenever `build_packets` returns `Ok`, the builder's
`current_packet` slot is empty afterwards: lines 326-328 finish and push any
still-open packet before returning. -/
theorem claim_C10_no_open_packet (P : Params) (st0 : Builder)
    (input : List (Nat × List SingleData × List FragmentData))
    (pkts : List Packet) (st' : Builder)
    (h : build_packets P st0 input = .ok (pkts, st')) :
    st'.currentPacket = none := by
  unfold build_packets at h
  cases hp : process_channels P st0 [] input with
  | error e => rw [hp] at h; exact absurd h (by simp)
  | ok r =>
    obtain ⟨st1, pkts1⟩ := r
    rw [hp] at h
    cases hc : st1.currentPacket with
    | none =>
      simp only [hc] at h
      obtain ⟨-, h2⟩ := Prod.mk.inj (Except.ok.inj h)
      rw [← h2]; exact hc
    | some p =>
      simp only [hc, finish_packet] at h
      obtain ⟨-, h2⟩ := Prod.mk.inj (Except.ok.inj h)
      rw [← h2]

/-- C10 witness: an empty build from a fresh builder. -/
theorem claim_C10_no_open_packet_witness :
    build_packets genParams freshBuilder [] = .ok ([], freshBuilder) ∧
      freshBuilder.currentPacket = none :=
  ⟨rfl, claim_C10_no_open_packet genParams freshBuilder [] [] freshBuilder rfl⟩

/-- C8 (amended): for every fragment-free channel of every successful build
started with no carried-over packet, over an input map with distinct channel
ids (as a `BTreeMap` iteration guarantees), the channel's single messages
appear across the output packets in exactly the stable ascending order of
their *payload byte length* (`message.bytes.len()`, the key of line 168) —
and that order is indeed sorted by payload length.  (The claim's
"encoded length" key is refuted by `claim_C8_counterexample`.) -/
theorem claim_C8_sorted_order (P : Params) (st0 : Builder)
    (input : List (Nat × List SingleData × List FragmentData))
    (pkts : List Packet) (st' : Builder)
    (hcur : st0.currentPacket = none)
    (hdistinct : List.Pairwise (fun x y => x.1 ≠ y.1) input)
    (h : build_packets P st0 input = .ok (pkts, st')) :
    ∀ (c : Nat) (singles : List SingleData),
      (c, singles, ([] : List FragmentData)) ∈ input →
      chanSinglesIn c 0 (packetsItems pkts) = sortSingles singles ∧
        (sortSingles singles).Sorted
          (fun a b => a.bytes.length ≤ b.bytes.length) := by
  intro c singles hmem
  constructor
  · simp only [build_packets] at h
    split at h
    · exact absurd h (by simp)
    · rename_i st1 pkts1 heq
      have hmain := process_channels_sorted P input st0 [] st1 pkts1 heq
        hdistinct c singles hmem
      rw [allItems_none [] hcur] at hmain
      rw [packetsItems_nil] at hmain
      simp only [chanSinglesIn, List.nil_append] at hmain
      split at h
      · rename_i q heq2
        split at h
        · exact absurd h (by simp)
        · rename_i pkt st3 heq3
          simp only [finish_packet, heq2] at heq3
          obtain ⟨h1, -⟩ := Prod.mk.inj (Except.ok.inj heq3)
          obtain ⟨h3, -⟩ := Prod.mk.inj (Except.ok.inj h)
          rw [← h3]
          rw [show packetsItems (pkts1 ++ [pkt]) = allItems st1 pkts1 from by
            rw [packetsItems_append, allItems_some pkts1 heq2, ← h1]
            simp [packetsItems]]
          exact hmain
      · rename_i heq2
        obtain ⟨h3, -⟩ := Prod.mk.inj (Except.ok.inj h)
        rw [← h3, show packetsItems pkts1 = allItems st1 pkts1 from
          (allItems_none pkts1 heq2).symm]
        exact hmain
  · haveI : IsTotal SingleData (fun a b => a.bytes.length ≤ b.bytes.length) :=
      ⟨fun a b => Nat.le_total _ _⟩
    haveI : IsTrans SingleData (fun a b => a.bytes.length ≤ b.bytes.length) :=
      ⟨fun _ _ _ hab hbc => le_trans hab hbc⟩
    exact List.sorted_insertionSort _ _

/-- C8 (amended) witness: a two-channel build in which channel 1 is drained
into the packet carried over from channel 0; each channel's messages come
out in ascending payload-length order. -/
theorem claim_C8_sorted_order_witness :
    freshBuilder.currentPacket = none ∧
      List.Pairwise (fun x y => x.1 ≠ y.1)
        [(0, [(⟨none, [1, 2]⟩ : SingleData), ⟨some 9, [1]⟩],
            ([] : List FragmentData)),
          (1, [⟨none, [3, 3, 3]⟩, ⟨none, [4]⟩], [])] ∧
      build_packets genParams freshBuilder
          [(0, [⟨none, [1, 2]⟩, ⟨some 9, [1]⟩], []),
            (1, [⟨none, [3, 3, 3]⟩, ⟨none, [4]⟩], [])] =
        .ok ([⟨[PayloadItem.header 0, PayloadItem.chan 0, PayloadItem.count 2,
                PayloadItem.single ⟨some 9, [1]⟩,
                PayloadItem.single ⟨none, [1, 2]⟩,
                PayloadItem.chan 1, PayloadItem.count 2,
                PayloadItem.single ⟨none, [4]⟩,
                PayloadItem.single ⟨none, [3, 3, 3]⟩],
               [(0, ⟨9, none⟩)], 0, 0⟩], ⟨1, none⟩) ∧
      ∀ (c : Nat) (singles : List SingleData),
        (c, singles, ([] : List FragmentData)) ∈
          [(0, [(⟨none, [1, 2]⟩ : SingleData), ⟨some 9, [1]⟩],
              ([] : List FragmentData)),
            (1, [⟨none, [3, 3, 3]⟩, ⟨none, [4]⟩], [])] →
        chanSinglesIn c 0 (packetsItems
            [⟨[PayloadItem.header 0, PayloadItem.chan 0, PayloadItem.count 2,
                PayloadItem.single ⟨some 9, [1]⟩,
                PayloadItem.single ⟨none, [1, 2]⟩,
                PayloadItem.chan 1, PayloadItem.count 2,
                PayloadItem.single ⟨none, [4]⟩,
                PayloadItem.single ⟨none, [3, 3, 3]⟩],
               [(0, ⟨9, none⟩)], 0, 0⟩]) = sortSingles singles ∧
          (sortSingles singles).Sorted
            (fun a b => a.bytes.length ≤ b.bytes.length) :=
  ⟨rfl, by decide, rfl,
    claim_C8_sorted_order genParams freshBuilder
      [(0, [⟨none, [1, 2]⟩, ⟨some 9, [1]⟩], []),
        (1, [⟨none, [3, 3, 3]⟩, ⟨none, [4]⟩], [])]
      _ ⟨1, none⟩ rfl (by decide) rfl⟩

/-- C8 counterexample: the code sorts by `message.bytes.len()` — the payload
byte length — not by the full encoded length.  With `c8mA` (5 payload bytes,
encoded length 9, carries an id) and `c8mB` (6 payload bytes, encoded length
8), the messages appear in the output in the order `[c8mA, c8mB]`, while the
ascending-encoded-length order of the claim is `[c8mB, c8mA]`. -/
theorem claim_C8_counterexample :
    (buildOutputPackets genParams freshBuilder c8in).map
        (fun pkts => singlesIn (packetsItems pkts)) = some [c8mA, c8mB] ∧
      specSortByEncodedLen c8queue = [c8mB, c8mA] ∧
      (buildOutputPackets genParams freshBuilder c8in).map
        (fun pkts => singlesIn (packetsItems pkts)) ≠
        some (specSortByEncodedLen c8queue) := by
  refine ⟨rfl, rfl, ?_⟩
  decide

end Lightyear
